import Mathlib

/-!
Verification of the task-manager core (TypeScript sources under `src/`)
against its natural-language specification.

Shallow embedding conventions:
* machine strings are Lean `String`; JavaScript string comparison
  (`<`, `>=`, `localeCompare`) is modelled as code-point lexicographic
  comparison (exact for the ASCII data the program compares: ISO dates,
  identifiers);
* the clock is passed explicitly (`now`, `today`, `oneWeekFromNow`
  parameters) instead of being read from the system;
* `uuidv4()` is passed explicitly as a `newId` parameter;
* JavaScript truthiness on optional strings (`undefined` and `""` are
  falsy) is modelled by `strFalsy`;
* `Date.toLocaleString()` rendering is modelled as the identity on the
  stored ISO string (its exact text is irrelevant to every property
  checked here);
* disk / database state is passed explicitly: the snapshot backend's
  file is a `DiskFile`, the indexed backend's table is a `List Task`
  of rows.
-/

namespace TaskMgr

/-- `Priority` enumeration from `src/types.ts`. -/
inductive Priority where
  | low
  | medium
  | high
deriving DecidableEq

/-- `Status` enumeration from `src/types.ts`. -/
inductive Status where
  | pending
  | in_progress
  | completed
deriving DecidableEq

/-- The `Task` interface from `src/types.ts`. Optional fields are `Option`. -/
structure Task where
  id : String
  title : String
  description : Option String
  priority : Priority
  category : Option String
  dueDate : Option String
  status : Status
  createdAt : String
  completedAt : Option String
deriving DecidableEq

/-- The `TaskStorage` interface from `src/types.ts`. -/
structure TaskStorage where
  tasks : List Task
  lastUpdated : String
deriving DecidableEq

/-- JavaScript truthiness test on an optional string:
`undefined` and `""` are falsy. -/
def strFalsy : Option String → Bool
  | none => true
  | some s => s.isEmpty

/-- Code-point lexicographic `≤` on character lists; models JavaScript
string comparison for the ASCII data compared by the program. -/
def charsLe : List Char → List Char → Bool
  | [], _ => true
  | _ :: _, [] => false
  | a :: as, b :: bs =>
    if a.toNat < b.toNat then true
    else if b.toNat < a.toNat then false
    else charsLe as bs

/-- Code-point lexicographic strict `<` on character lists. -/
def charsLt : List Char → List Char → Bool
  | [], [] => false
  | [], _ :: _ => true
  | _ :: _, [] => false
  | a :: as, b :: bs =>
    if a.toNat < b.toNat then true
    else if b.toNat < a.toNat then false
    else charsLt as bs

/-- String `≤`, code-point lexicographic. -/
def strLe (a b : String) : Bool := charsLe a.data b.data

/-- String `<`, code-point lexicographic (models JavaScript `<` on strings). -/
def strLt (a b : String) : Bool := charsLt a.data b.data

/-- `needle` is a character-list prefix of `hay`; models
`String.prototype.startsWith`. -/
def charsStart : List Char → List Char → Bool
  | [], _ => true
  | _ :: _, [] => false
  | a :: as, b :: bs => a == b && charsStart as bs

/-- `s.startsWith(p)` of JavaScript. -/
def strStarts (s p : String) : Bool := charsStart p.data s.data

/-- `s.toLowerCase()` of JavaScript, modelled per character (exact for
the ASCII configuration values and category names the program lowers). -/
def strToLower (s : String) : String := String.mk (s.data.map Char.toLower)

theorem charsLe_total : ∀ a b, charsLe a b = true ∨ charsLe b a = true := by
  intro a
  induction a with
  | nil => intro b; left; rfl
  | cons x xs ih =>
    intro b
    cases b with
    | nil => right; rfl
    | cons y ys =>
      by_cases hxy : x.toNat < y.toNat
      · left; simp [charsLe, hxy]
      · by_cases hyx : y.toNat < x.toNat
        · right; simp [charsLe, hyx]
        · rcases ih ys with h | h
          · left; simp [charsLe, hxy, hyx, h]
          · right; simp [charsLe, hxy, hyx, h]

theorem charsLe_trans : ∀ a b c, charsLe a b = true → charsLe b c = true →
    charsLe a c = true := by
  intro a
  induction a with
  | nil => intro b c _ _; rfl
  | cons x xs ih =>
    intro b c hab hbc
    cases b with
    | nil => simp [charsLe] at hab
    | cons y ys =>
      cases c with
      | nil => simp [charsLe] at hbc
      | cons z zs =>
        simp only [charsLe] at hab hbc ⊢
        by_cases hxy : x.toNat < y.toNat
        · by_cases hyz : y.toNat < z.toNat
          · have hxz : x.toNat < z.toNat := Nat.lt_trans hxy hyz
            simp [hxz]
          · by_cases hzy : z.toNat < y.toNat
            · simp [hxy, hyz, hzy] at hbc
            · have hyzeq : y.toNat = z.toNat := Nat.le_antisymm
                (Nat.le_of_not_lt hzy) (Nat.le_of_not_lt hyz)
              have hxz : x.toNat < z.toNat := hyzeq ▸ hxy
              simp [hxz]
        · by_cases hyx : y.toNat < x.toNat
          · simp [hxy, hyx] at hab
          · have hxyeq : x.toNat = y.toNat := Nat.le_antisymm
              (Nat.le_of_not_lt hyx) (Nat.le_of_not_lt hxy)
            by_cases hyz : y.toNat < z.toNat
            · have hxz : x.toNat < z.toNat := hxyeq ▸ hyz
              simp [hxz]
            · by_cases hzy : z.toNat < y.toNat
              · simp [hyz, hzy] at hbc
              · have hxz : ¬ x.toNat < z.toNat := by omega
                have hzx : ¬ z.toNat < x.toNat := by omega
                simp only [if_neg hxy, if_neg hyx] at hab
                simp only [if_neg hyz, if_neg hzy] at hbc
                simp only [if_neg hxz, if_neg hzx]
                exact ih ys zs hab hbc

theorem strLe_total (a b : String) : strLe a b = true ∨ strLe b a = true :=
  charsLe_total a.data b.data

theorem strLe_trans {a b c : String} (h1 : strLe a b = true)
    (h2 : strLe b c = true) : strLe a c = true :=
  charsLe_trans a.data b.data c.data h1 h2

/-- Priority rank of `listTasks` (`src/tools.ts` lines 86-90):
high = 0, medium = 1, low = 2. -/
def priorityOrder : Priority → Nat
  | .high => 0
  | .medium => 1
  | .low => 2

/-- Effective due-date key used by the `listTasks` comparator
(`src/tools.ts` lines 96-97): `a.dueDate || "9999-99-99"` — JavaScript
`||` substitutes the sentinel for `undefined` and for `""`. -/
def dueDateKey (t : Task) : String :=
  match t.dueDate with
  | none => "9999-99-99"
  | some d => if d.isEmpty then "9999-99-99" else d

/-- The `listTasks` sort comparator (`src/tools.ts` lines 92-99) read as a
total preorder: `a` may precede `b` iff comparator(a,b) ≤ 0, i.e. a's
priority rank is smaller, or the ranks tie and a's due-date key is ≤ b's. -/
def taskLe (a b : Task) : Bool :=
  if priorityOrder a.priority < priorityOrder b.priority then true
  else if priorityOrder b.priority < priorityOrder a.priority then false
  else strLe (dueDateKey a) (dueDateKey b)

theorem taskLe_total (a b : Task) : taskLe a b = true ∨ taskLe b a = true := by
  unfold taskLe
  by_cases h1 : priorityOrder a.priority < priorityOrder b.priority
  · left; simp [h1]
  · by_cases h2 : priorityOrder b.priority < priorityOrder a.priority
    · right; simp [h2]
    · rcases strLe_total (dueDateKey a) (dueDateKey b) with h | h
      · left; simp [h1, h2, h]
      · right; simp [h1, h2, h]

theorem taskLe_trans {a b c : Task} (h1 : taskLe a b = true)
    (h2 : taskLe b c = true) : taskLe a c = true := by
  unfold taskLe at h1 h2 ⊢
  rcases Nat.lt_trichotomy (priorityOrder a.priority) (priorityOrder b.priority)
    with hab | hab | hab
  · rcases Nat.lt_trichotomy (priorityOrder b.priority) (priorityOrder c.priority)
      with hbc | hbc | hbc
    · have hac : priorityOrder a.priority < priorityOrder c.priority :=
        Nat.lt_trans hab hbc
      simp [hac]
    · have hac : priorityOrder a.priority < priorityOrder c.priority := hbc ▸ hab
      simp [hac]
    · have hnbc : ¬ priorityOrder b.priority < priorityOrder c.priority := by omega
      simp [hnbc, hbc] at h2
  · rcases Nat.lt_trichotomy (priorityOrder b.priority) (priorityOrder c.priority)
      with hbc | hbc | hbc
    · have hac : priorityOrder a.priority < priorityOrder c.priority := hab ▸ hbc
      simp [hac]
    · have hanb : ¬ priorityOrder a.priority < priorityOrder b.priority := by omega
      have hbna : ¬ priorityOrder b.priority < priorityOrder a.priority := by omega
      have hbnc : ¬ priorityOrder b.priority < priorityOrder c.priority := by omega
      have hcnb : ¬ priorityOrder c.priority < priorityOrder b.priority := by omega
      have hanc : ¬ priorityOrder a.priority < priorityOrder c.priority := by omega
      have hcna : ¬ priorityOrder c.priority < priorityOrder a.priority := by omega
      simp only [if_neg hanb, if_neg hbna] at h1
      simp only [if_neg hbnc, if_neg hcnb] at h2
      simp only [if_neg hanc, if_neg hcna]
      exact strLe_trans h1 h2
    · have hnbc : ¬ priorityOrder b.priority < priorityOrder c.priority := by omega
      simp [hnbc, hbc] at h2
  · have hnab : ¬ priorityOrder a.priority < priorityOrder b.priority := by omega
    simp [hnab, hab] at h1

/-- Stable insertion of `a` into a list already processed: `a` goes after
every element `u` with `le u a`, hence after all elements that tie with it. -/
def stableInsert {α : Type} (le : α → α → Bool) (a : α) : List α → List α
  | [] => [a]
  | u :: us => if le u a then u :: stableInsert le a us else a :: u :: us

/-- Stable sort by insertion, processing the input left to right. Models the
guaranteed-stable `Array.prototype.sort` of the program: it produces a
permutation of the input, sorted consistently with the comparator, keeping
tied elements in input order. -/
def stableSort {α : Type} (le : α → α → Bool) (l : List α) : List α :=
  l.foldl (fun acc a => stableInsert le a acc) []

theorem stableInsert_perm {α : Type} (le : α → α → Bool) (a : α) :
    ∀ l : List α, List.Perm (stableInsert le a l) (a :: l) := by
  intro l
  induction l with
  | nil => exact List.Perm.refl _
  | cons u us ih =>
    by_cases h : le u a
    · simp only [stableInsert, if_pos h]
      exact (ih.cons u).trans (List.Perm.swap _ _ _)
    · simp only [stableInsert, if_neg h]
      exact List.Perm.refl _

theorem stableInsert_pairwise {α : Type} (le : α → α → Bool)
    (htrans : ∀ x y z, le x y = true → le y z = true → le x z = true)
    (htotal : ∀ x y, le x y = true ∨ le y x = true) (a : α) :
    ∀ l : List α, l.Pairwise (fun x y => le x y = true) →
      (stableInsert le a l).Pairwise (fun x y => le x y = true) := by
  intro l
  induction l with
  | nil => intro _; simp [stableInsert]
  | cons u us ih =>
    intro hp
    rcases List.pairwise_cons.mp hp with ⟨hu, hus⟩
    by_cases h : le u a
    · simp only [stableInsert, if_pos h]
      refine List.pairwise_cons.mpr ⟨?_, ih hus⟩
      intro v hv
      have hmem : v ∈ a :: us := (stableInsert_perm le a us).mem_iff.mp hv
      rcases List.mem_cons.mp hmem with rfl | hvus
      · exact h
      · exact hu v hvus
    · simp only [stableInsert, if_neg h]
      have hau : le a u = true := by
        rcases htotal u a with h' | h'
        · exact absurd h' h
        · exact h'
      refine List.pairwise_cons.mpr ⟨?_, hp⟩
      intro v hv
      rcases List.mem_cons.mp hv with rfl | hvus
      · exact hau
      · exact htrans a u v hau (hu v hvus)

theorem stableSort_perm_aux {α : Type} (le : α → α → Bool) :
    ∀ (l acc : List α),
      List.Perm (l.foldl (fun acc a => stableInsert le a acc) acc) (l ++ acc) := by
  intro l
  induction l with
  | nil => intro acc; simp
  | cons a as ih =>
    intro acc
    simp only [List.foldl_cons, List.cons_append]
    refine ((ih (stableInsert le a acc)).trans ?_).trans List.perm_middle
    exact List.Perm.append_left as (stableInsert_perm le a acc)

/-- `stableSort` permutes its input. -/
theorem stableSort_perm {α : Type} (le : α → α → Bool) (l : List α) :
    List.Perm (stableSort le l) l := by
  have := stableSort_perm_aux le l []
  simpa [stableSort] using this

theorem stableSort_pairwise_aux {α : Type} (le : α → α → Bool)
    (htrans : ∀ x y z, le x y = true → le y z = true → le x z = true)
    (htotal : ∀ x y, le x y = true ∨ le y x = true) :
    ∀ (l acc : List α), acc.Pairwise (fun x y => le x y = true) →
      (l.foldl (fun acc a => stableInsert le a acc) acc).Pairwise
        (fun x y => le x y = true) := by
  intro l
  induction l with
  | nil => intro acc h; simpa using h
  | cons a as ih =>
    intro acc h
    simp only [List.foldl_cons]
    exact ih _ (stableInsert_pairwise le htrans htotal a acc h)

/-- `stableSort` output is pairwise ordered by the comparator. -/
theorem stableSort_pairwise {α : Type} (le : α → α → Bool)
    (htrans : ∀ x y z, le x y = true → le y z = true → le x z = true)
    (htotal : ∀ x y, le x y = true ∨ le y x = true) (l : List α) :
    (stableSort le l).Pairwise (fun x y => le x y = true) :=
  stableSort_pairwise_aux le htrans htotal l [] (by simp)

/-- `formatTask` from `src/storage.ts` lines 49-84.
`new Date(x).toLocaleString()` is modelled as the stored ISO string itself. -/
def formatTask (t : Task) : String :=
  let statusEmoji :=
    if t.status = Status.completed then "✅"
    else if t.status = Status.in_progress then "⏳" else "📋"
  let priorityEmoji :=
    match t.priority with
    | .high => "🔴"
    | .medium => "🟡"
    | .low => "🟢"
  let base := statusEmoji ++ " Task #" ++ t.id.take 8 ++ ": " ++ t.title ++ "\n"
    ++ "   " ++ priorityEmoji ++ " Priority: " ++
      (match t.priority with | .high => "high" | .medium => "medium" | .low => "low")
    ++ "\n"
  let withDesc := base ++
    (match t.description with
     | some d => if d.isEmpty then "" else "   Description: " ++ d ++ "\n"
     | none => "")
  let withCat := withDesc ++
    (match t.category with
     | some c => if c.isEmpty then "" else "   Category: " ++ c ++ "\n"
     | none => "")
  let withDue := withCat ++
    (match t.dueDate with
     | some d => if d.isEmpty then "" else "   Due: " ++ d ++ "\n"
     | none => "")
  let statusText :=
    match t.status with
    | .pending => "pending"
    | .in_progress => "in_progress"
    | .completed => "completed"
  let withStatus := withDue ++ "   Status: " ++ statusText ++ "\n"
    ++ "   Created: " ++ t.createdAt ++ "\n"
  withStatus ++
    (match t.completedAt with
     | some c => if c.isEmpty then "" else "   Completed: " ++ c ++ "\n"
     | none => "")

/-- `saveTasks` of the snapshot-file backend (`src/storage.ts` lines 41-44):
stamps `lastUpdated = now` and overwrites the whole on-disk document with the
collection; the value returned here is the document the disk holds afterwards. -/
def saveTasksFile (now : String) (s : TaskStorage) : TaskStorage :=
  { s with lastUpdated := now }

/-- The empty collection the snapshot backend falls back to
(`src/storage.ts` lines 32-35). -/
def emptyStorage (now : String) : TaskStorage :=
  { tasks := [], lastUpdated := now }

/-- On-disk state of the snapshot backend's document, as the load path
distinguishes it: the file is absent, or present but failing
deserialization (the `catch` path), or present and deserializing to a
`TaskStorage` value. -/
inductive DiskFile where
  | absent
  | invalid (err : String)
  | valid (s : TaskStorage)

/-- `loadTasks` of the snapshot-file backend (`src/storage.ts` lines 21-36).
Returns the loaded collection together with the list of `console.error`
messages emitted; the function is total — no case raises. -/
def loadTasksFile (now : String) : DiskFile → TaskStorage × List String
  | .valid s => (s, [])
  | .invalid err => (emptyStorage now, ["Error loading tasks: " ++ err])
  | .absent => (emptyStorage now, [])

/-- A reply of an operation: the collection persisted on disk when the
operation returns (unchanged when the operation did not save) and the
text block returned to the caller. -/
structure OpReply where
  store : TaskStorage
  text : String
deriving DecidableEq

/-- Validated arguments of `create_task` (`CreateTaskSchema` in
`src/types.ts`); the `medium` default has already been applied. -/
structure CreateArgs where
  title : String
  description : Option String
  priority : Priority
  category : Option String
  dueDate : Option String
deriving DecidableEq

/-- `createTask` from `src/tools.ts` lines 17-48. `uuidv4()` and
`new Date().toISOString()` are the parameters `newId` and `now`. -/
def createTask (now newId : String) (args : CreateArgs) (s : TaskStorage) :
    OpReply :=
  let newTask : Task :=
    { id := newId
      title := args.title
      description := args.description
      priority := args.priority
      category := args.category
      dueDate := args.dueDate
      status := Status.pending
      createdAt := now
      completedAt := none }
  { store := saveTasksFile now { s with tasks := s.tasks ++ [newTask] }
    text := "✅ Task created successfully!\n\n" ++ formatTask newTask }

/-- Validated arguments of `list_tasks` (`ListTasksSchema`); the filter
value "all" is `none`. -/
structure ListArgs where
  status : Option Status
  priority : Option Priority
  category : Option String
deriving DecidableEq

/-- The three sequential filters of `listTasks` (`src/tools.ts` lines 62-72):
status (skipped on "all"), priority (skipped on "all"), case-insensitive
category equality (skipped when the argument is absent or empty — JavaScript
truthiness). A task without a category never matches the category filter. -/
def listFiltered (args : ListArgs) (tasks : List Task) : List Task :=
  let t1 := match args.status with
    | none => tasks
    | some st => tasks.filter (fun t => t.status = st)
  let t2 := match args.priority with
    | none => t1
    | some p => t1.filter (fun t => t.priority = p)
  match args.category with
  | none => t2
  | some c =>
    if c.isEmpty then t2
    else t2.filter (fun t =>
      match t.category with
      | none => false
      | some tc => strToLower tc = strToLower c)

/-- The sorted task sequence `listTasks` renders (`src/tools.ts`
lines 59-99): filter, then sort by the comparator. -/
def listTasks (args : ListArgs) (s : TaskStorage) : List Task :=
  stableSort taskLe (listFiltered args s.tasks)

/-- Validated arguments of `update_task` (`UpdateTaskSchema`); `none`
models an absent optional field. -/
structure UpdateArgs where
  taskId : String
  title : Option String
  description : Option String
  priority : Option Priority
  category : Option String
  dueDate : Option String
  status : Option Status
deriving DecidableEq

/-- The five non-status field mutations of `updateTask`
(`src/tools.ts` lines 155-169): each field is overwritten only when
explicitly present in the request. -/
def applyFieldUpdates (args : UpdateArgs) (t : Task) : Task :=
  let t := match args.title with | none => t | some v => { t with title := v }
  let t := match args.description with
    | none => t
    | some v => { t with description := some v }
  let t := match args.priority with
    | none => t
    | some v => { t with priority := v }
  let t := match args.category with
    | none => t
    | some v => { t with category := some v }
  match args.dueDate with
  | none => t
  | some v => { t with dueDate := some v }

/-- The status mutation of `updateTask` (`src/tools.ts` lines 170-177):
when a status is present, set it; stamp `completedAt = now` when setting
`completed` with `!task.completedAt` (JavaScript falsiness), clear
`completedAt` when setting any non-completed status. -/
def applyStatusUpdate (now : String) (st? : Option Status) (t : Task) : Task :=
  match st? with
  | none => t
  | some st =>
    let t := { t with status := st }
    if st = Status.completed then
      if strFalsy t.completedAt then { t with completedAt := some now } else t
    else
      { t with completedAt := none }

/-- The field mutations `updateTask` applies to the resolved task
(`src/tools.ts` lines 154-177): the five plain fields, then the
status/`completedAt` step. -/
def applyUpdate (now : String) (args : UpdateArgs) (t : Task) : Task :=
  applyStatusUpdate now args.status (applyFieldUpdates args t)

/-- `findIndex` followed by in-place mutation of the found element:
replaces the first task satisfying `p` by its image under `f`, returning
the new list and the mutated task, or `none` when no task matches. -/
def updateFirstWith (p : Task → Bool) (f : Task → Task) :
    List Task → Option (List Task × Task)
  | [] => none
  | t :: ts =>
    if p t then some (f t :: ts, f t)
    else match updateFirstWith p f ts with
      | none => none
      | some (ts2, u) => some (t :: ts2, u)

/-- `findIndex` followed by `splice(index, 1)`: removes the first task
satisfying `p`, returning the remaining list and the removed task. -/
def removeFirstWith (p : Task → Bool) :
    List Task → Option (List Task × Task)
  | [] => none
  | t :: ts =>
    if p t then some (ts, t)
    else match removeFirstWith p ts with
      | none => none
      | some (ts2, u) => some (t :: ts2, u)

/-- The prefix-match predicate of update/delete/complete
(`t.id.startsWith(validated.taskId)`). -/
def idMatches (taskId : String) (t : Task) : Bool := strStarts t.id taskId

/-- The not-found reply text of update/delete/complete. -/
def notFoundText (taskId : String) : String :=
  "❌ Task with ID " ++ taskId ++ " not found."

/-- `updateTask` from `src/tools.ts` lines 129-189. -/
def updateTask (now : String) (args : UpdateArgs) (s : TaskStorage) : OpReply :=
  match updateFirstWith (idMatches args.taskId) (applyUpdate now args) s.tasks with
  | none => { store := s, text := notFoundText args.taskId }
  | some (ts, u) =>
    { store := saveTasksFile now { s with tasks := ts }
      text := "✅ Task updated successfully!\n\n" ++ formatTask u }

/-- `deleteTask` from `src/tools.ts` lines 194-229. -/
def deleteTask (now taskId : String) (s : TaskStorage) : OpReply :=
  match removeFirstWith (idMatches taskId) s.tasks with
  | none => { store := s, text := notFoundText taskId }
  | some (ts, u) =>
    { store := saveTasksFile now { s with tasks := ts }
      text := "🗑️ Task \"" ++ u.title ++ "\" deleted successfully." }

/-- The mutation `completeTask` applies to the found task
(`src/tools.ts` lines 256-257): force `status = completed`,
`completedAt = now` unconditionally. -/
def completeFields (now : String) (t : Task) : Task :=
  { t with status := Status.completed, completedAt := some now }

/-- `completeTask` from `src/tools.ts` lines 234-268. -/
def completeTask (now taskId : String) (s : TaskStorage) : OpReply :=
  match updateFirstWith (idMatches taskId) (completeFields now) s.tasks with
  | none => { store := s, text := notFoundText taskId }
  | some (ts, u) =>
    { store := saveTasksFile now { s with tasks := ts }
      text := "✅ Task completed!\n\n" ++ formatTask u }

/-- `clearCompleted` from `src/tools.ts` lines 421-444. -/
def clearCompleted (now : String) (s : TaskStorage) : OpReply :=
  let remaining := s.tasks.filter (fun t => ¬ t.status = Status.completed)
  let removedCount := s.tasks.length - remaining.length
  let msg :=
    if removedCount > 0 then
      "🧹 Cleared " ++ toString removedCount ++ " completed task(s). "
        ++ toString remaining.length ++ " active task(s) remaining."
    else "No completed tasks to clear."
  { store := saveTasksFile now { s with tasks := remaining }, text := msg }

/-- `Map.get` of the insertion-ordered category map, as an association
list. -/
def mapGet : List (String × Nat) → String → Option Nat
  | [], _ => none
  | (k, v) :: rest, c => if k = c then some v else mapGet rest c

/-- `Map.set`: replaces the value at an existing key in place, otherwise
appends the new entry (JavaScript `Map` preserves insertion order). -/
def mapSet : List (String × Nat) → String → Nat → List (String × Nat)
  | [], c, n => [(c, n)]
  | (k, v) :: rest, c, n =>
    if k = c then (k, n) :: rest else (k, v) :: mapSet rest c n

/-- Loop body of the category count (`src/tools.ts` lines 349-353): for a
task with a truthy category `c`, set `c ↦ (categories.get(c) || 0) + 1`. -/
def catStep (m : List (String × Nat)) (t : Task) : List (String × Nat) :=
  match t.category with
  | none => m
  | some c => if c.isEmpty then m else mapSet m c ((mapGet m c).getD 0 + 1)

/-- The category-count map of `getTaskStats` (`src/tools.ts` lines 348-353). -/
def categoriesMap (tasks : List Task) : List (String × Nat) :=
  tasks.foldl catStep []

/-- The category listing of the stats report (`src/tools.ts` lines 392-399):
the map's entries sorted by key (`localeCompare` modelled as code-point
order). -/
def statsCategories (tasks : List Task) : List (String × Nat) :=
  stableSort (fun p q => strLe p.1 q.1) (categoriesMap tasks)

/-- Overdue predicate of `getTaskStats` (`src/tools.ts` lines 361-363):
not completed, truthy `dueDate`, `dueDate < today`. -/
def isOverdue (today : String) (t : Task) : Bool :=
  if t.status = Status.completed then false
  else match t.dueDate with
    | none => false
    | some d => if d.isEmpty then false else strLt d today

/-- Due-soon predicate of `getTaskStats` (`src/tools.ts` lines 365-371):
not completed, truthy `dueDate`, `today <= dueDate <= oneWeekFromNow`. -/
def isDueSoon (today oneWeekFromNow : String) (t : Task) : Bool :=
  if t.status = Status.completed then false
  else match t.dueDate with
    | none => false
    | some d =>
      if d.isEmpty then false
      else strLe today d && strLe d oneWeekFromNow

/-- Completion rate in tenths of a percent:
`((completed / total) * 100).toFixed(1)` (`src/tools.ts` lines 373-374)
modelled exactly over the rationals with `toFixed`'s round-half-up tie
rule; the displayed string is `(n / 10) ++ "." ++ (n % 10)`. -/
def rateTenths (completed total : Nat) : Nat :=
  (2 * (completed * 1000) + total) / (2 * total)

/-- The aggregate values computed by `getTaskStats`
(`src/tools.ts` lines 333-374). -/
structure TaskStats where
  total : Nat
  pending : Nat
  in_progress : Nat
  completed : Nat
  high : Nat
  medium : Nat
  low : Nat
  categories : List (String × Nat)
  overdue : Nat
  dueSoon : Nat
  completionRateTenths : Nat
deriving DecidableEq

/-- Result of the stats operation: the zero-task short-circuit message, or
the full report. -/
inductive StatsResult where
  | noTasks (msg : String)
  | report (st : TaskStats)
deriving DecidableEq

/-- `getTaskStats` from `src/tools.ts` lines 318-416. `today` and
`oneWeekFromNow` are the two date strings the code derives from the clock
(the current date and the date seven days later). -/
def getTaskStats (today oneWeekFromNow : String) (s : TaskStorage) :
    StatsResult :=
  let tasks := s.tasks
  if tasks.length = 0 then
    StatsResult.noTasks "No tasks yet. Create your first task to get started!"
  else
    let completedN := (tasks.filter (fun t => t.status = Status.completed)).length
    StatsResult.report
      { total := tasks.length
        pending := (tasks.filter (fun t => t.status = Status.pending)).length
        in_progress :=
          (tasks.filter (fun t => t.status = Status.in_progress)).length
        completed := completedN
        high := (tasks.filter (fun t => t.priority = Priority.high)).length
        medium := (tasks.filter (fun t => t.priority = Priority.medium)).length
        low := (tasks.filter (fun t => t.priority = Priority.low)).length
        categories := statsCategories tasks
        overdue := (tasks.filter (isOverdue today)).length
        dueSoon := (tasks.filter (isDueSoon today oneWeekFromNow)).length
        completionRateTenths := rateTenths completedN tasks.length }

/-- `INSERT OR REPLACE` keyed on the `id` primary key
(`src/storage-db.ts` lines 82-98): the conflicting row, if any, is
deleted and the new row inserted. -/
def upsertRow (rows : List Task) (t : Task) : List Task :=
  rows.filter (fun r => ¬ r.id = t.id) ++ [t]

/-- `saveTasks` of the indexed-table backend (`src/storage-db.ts`
lines 79-103): upserts every task of the input collection, in order,
inside one transaction (the pure model has no failing writes, so the
transaction is a single function application); no row is deleted. -/
def saveTasksDb (rows : List Task) (s : TaskStorage) : List Task :=
  s.tasks.foldl upsertRow rows

/-- `loadTasks` of the indexed-table backend (`src/storage-db.ts`
lines 43-51): all rows, `lastUpdated` stamped to now. -/
def loadTasksDb (now : String) (rows : List Task) : TaskStorage :=
  { tasks := rows, lastUpdated := now }

/-- Which storage backend a module binding resolves to. -/
inductive BackendKind where
  | file
  | database
deriving DecidableEq

/-- Backend selection of the storage router (`src/storage-router.ts`
lines 12-23): lowercase the `STORAGE_TYPE` value (default `"file"` when
absent); `"database"` or `"db"` selects the indexed-table backend,
anything else the snapshot-file backend. -/
def routerBackend (storageTypeEnv : Option String) : BackendKind :=
  let st := strToLower (storageTypeEnv.getD "file")
  if st = "database" ∨ st = "db" then BackendKind.database
  else BackendKind.file

/-- The storage module the operation layer's `loadTasks` / `saveTasks`
are bound to, as a function of the configuration: `src/tools.ts` line 12
statically imports `./storage.js` — the snapshot-file backend — so the
binding is the same for every configuration value. (Only the read-only
resource surface in `src/index.ts` imports `./storage-router.js`.) -/
def toolsBackend (_storageTypeEnv : Option String) : BackendKind :=
  BackendKind.file

/-- The `taskId` constraint shared by `UpdateTaskSchema` and
`TaskIdSchema` (`src/types.ts` lines 48-49 and 61-63):
`z.string().min(8)`. `parse` raises a `ZodError` on violation — modelled
as `Except.error` — before the tool body runs. (JavaScript measures
length in UTF-16 units; identical to Lean's length on the ASCII UUIDs
compared here.) -/
def parseTaskIdField (taskId : String) : Except String String :=
  if 8 ≤ taskId.length then Except.ok taskId
  else Except.error "Task ID must be at least 8 characters"

/-- `update_task` including its schema validation step
(`UpdateTaskSchema.parse` at `src/tools.ts` line 131): a validation
failure raises before any load, lookup or persist. -/
def updateTaskChecked (now : String) (args : UpdateArgs) (s : TaskStorage) :
    Except String OpReply :=
  match parseTaskIdField args.taskId with
  | Except.error e => Except.error e
  | Except.ok _ => Except.ok (updateTask now args s)

/-- `delete_task` including its schema validation step
(`TaskIdSchema.parse` at `src/tools.ts` line 196). -/
def deleteTaskChecked (now taskId : String) (s : TaskStorage) :
    Except String OpReply :=
  match parseTaskIdField taskId with
  | Except.error e => Except.error e
  | Except.ok _ => Except.ok (deleteTask now taskId s)

/-- `complete_task` including its schema validation step
(`TaskIdSchema.parse` at `src/tools.ts` line 236). -/
def completeTaskChecked (now taskId : String) (s : TaskStorage) :
    Except String OpReply :=
  match parseTaskIdField taskId with
  | Except.error e => Except.error e
  | Except.ok _ => Except.ok (completeTask now taskId s)

/-! ### Helper lemmas -/

theorem applyFieldUpdates_completedAt (args : UpdateArgs) (t : Task) :
    (applyFieldUpdates args t).completedAt = t.completedAt := by
  unfold applyFieldUpdates
  cases args.title <;> cases args.description <;> cases args.priority <;>
    cases args.category <;> cases args.dueDate <;> rfl

theorem applyFieldUpdates_status (args : UpdateArgs) (t : Task) :
    (applyFieldUpdates args t).status = t.status := by
  unfold applyFieldUpdates
  cases args.title <;> cases args.description <;> cases args.priority <;>
    cases args.category <;> cases args.dueDate <;> rfl

theorem mapGet_mapSet_self :
    ∀ (m : List (String × Nat)) (c : String) (n : Nat),
      mapGet (mapSet m c n) c = some n := by
  intro m c n
  induction m with
  | nil => simp [mapSet, mapGet]
  | cons p rest ih =>
    obtain ⟨k, v⟩ := p
    by_cases h : k = c
    · simp [mapSet, mapGet, h]
    · simp [mapSet, mapGet, h, ih]

theorem mapGet_mapSet_other :
    ∀ (m : List (String × Nat)) (c c' : String) (n : Nat), c' ≠ c →
      mapGet (mapSet m c n) c' = mapGet m c' := by
  intro m c c' n hne
  induction m with
  | nil =>
    have hcc : ¬ c = c' := fun h => hne h.symm
    simp [mapSet, mapGet, hcc]
  | cons p rest ih =>
    obtain ⟨k, v⟩ := p
    by_cases h : k = c
    · subst h
      have hkc : ¬ k = c' := fun h => hne h.symm
      simp only [mapSet, if_pos rfl]
      simp [mapGet, hkc]
    · simp only [mapSet, if_neg h]
      by_cases h2 : k = c'
      · simp [mapGet, h2]
      · simp [mapGet, h2, ih]

theorem mem_of_mapGet :
    ∀ (m : List (String × Nat)) (c : String) (n : Nat),
      mapGet m c = some n → (c, n) ∈ m := by
  intro m
  induction m with
  | nil => intro c n h; cases h
  | cons p rest ih =>
    intro c n h
    obtain ⟨k, v⟩ := p
    by_cases hk : k = c
    · subst hk
      simp only [mapGet, if_pos rfl] at h
      cases h
      exact List.mem_cons_self _ _
    · simp only [mapGet, if_neg hk] at h
      exact List.mem_cons_of_mem _ (ih c n h)

theorem mapGet_of_mem :
    ∀ (m : List (String × Nat)),
      m.Pairwise (fun p q => p.1 ≠ q.1) →
      ∀ (c : String) (n : Nat), (c, n) ∈ m → mapGet m c = some n := by
  intro m
  induction m with
  | nil => intro _ c n h; cases h
  | cons p rest ih =>
    intro hp c n h
    obtain ⟨k, v⟩ := p
    rcases List.pairwise_cons.mp hp with ⟨hhead, hrest⟩
    rcases List.mem_cons.mp h with heq | hmem
    · cases heq
      simp [mapGet]
    · have hk : k ≠ c := by
        have := hhead (c, n) hmem
        simpa using this
      simp only [mapGet, if_neg hk]
      exact ih hrest c n hmem

theorem mapSet_key_cases :
    ∀ (m : List (String × Nat)) (c : String) (n : Nat)
      (q : String × Nat), q ∈ mapSet m c n → q.1 = c ∨ q ∈ m := by
  intro m c n
  induction m with
  | nil =>
    intro q hq
    rcases List.mem_singleton.mp hq with rfl
    exact Or.inl rfl
  | cons p rest ih =>
    intro q hq
    obtain ⟨k, v⟩ := p
    by_cases hk : k = c
    · subst hk
      simp only [mapSet, if_pos rfl] at hq
      rcases List.mem_cons.mp hq with rfl | hmem
      · exact Or.inl rfl
      · exact Or.inr (List.mem_cons_of_mem _ hmem)
    · simp only [mapSet, if_neg hk] at hq
      rcases List.mem_cons.mp hq with rfl | hmem
      · exact Or.inr (List.mem_cons_self _ _)
      · rcases ih q hmem with h | h
        · exact Or.inl h
        · exact Or.inr (List.mem_cons_of_mem _ h)

theorem mapSet_pairwise :
    ∀ (m : List (String × Nat)) (c : String) (n : Nat),
      m.Pairwise (fun p q => p.1 ≠ q.1) →
      (mapSet m c n).Pairwise (fun p q => p.1 ≠ q.1) := by
  intro m c n
  induction m with
  | nil => intro _; simp [mapSet]
  | cons p rest ih =>
    intro hp
    obtain ⟨k, v⟩ := p
    rcases List.pairwise_cons.mp hp with ⟨hhead, hrest⟩
    by_cases hk : k = c
    · subst hk
      simp only [mapSet, if_pos rfl]
      exact List.pairwise_cons.mpr ⟨fun q hq => hhead q hq, hrest⟩
    · simp only [mapSet, if_neg hk]
      refine List.pairwise_cons.mpr ⟨?_, ih hrest⟩
      intro q hq
      rcases mapSet_key_cases rest c n q hq with h | h
      · simpa [h] using hk
      · exact hhead q h

theorem countP_append_singleton (c : String) (done : List Task) (t : Task) :
    (done ++ [t]).countP (fun u => u.category = some c)
      = done.countP (fun u => u.category = some c)
        + (if t.category = some c then 1 else 0) := by
  rw [List.countP_append]
  by_cases h : t.category = some c
  · simp [List.countP_cons, h]
  · simp [List.countP_cons, h]

theorem catStep_inv (done : List Task) (m : List (String × Nat)) (t : Task)
    (h1 : m.Pairwise (fun p q => p.1 ≠ q.1))
    (h2 : ∀ c : String, c.isEmpty → mapGet m c = none)
    (h3 : ∀ c : String, ¬ c.isEmpty = true →
      mapGet m c =
        (if done.countP (fun u => u.category = some c) = 0 then none
         else some (done.countP (fun u => u.category = some c)))) :
    (catStep m t).Pairwise (fun p q => p.1 ≠ q.1) ∧
    (∀ c : String, c.isEmpty → mapGet (catStep m t) c = none) ∧
    (∀ c : String, ¬ c.isEmpty = true →
      mapGet (catStep m t) c =
        (if (done ++ [t]).countP (fun u => u.category = some c) = 0 then none
         else some ((done ++ [t]).countP (fun u => u.category = some c)))) := by
  cases hcat : t.category with
  | none =>
    refine ⟨by simpa [catStep, hcat] using h1,
      by simpa [catStep, hcat] using h2, ?_⟩
    intro c hc
    have hcount : (if t.category = some c then 1 else 0) = 0 := by
      rw [hcat]; simp
    rw [countP_append_singleton, hcount, Nat.add_zero]
    simpa [catStep, hcat] using h3 c hc
  | some c0 =>
    by_cases hemp : c0.isEmpty
    · refine ⟨by simpa [catStep, hcat, hemp] using h1,
        by simpa [catStep, hcat, hemp] using h2, ?_⟩
      intro c hc
      have hne : ¬ t.category = some c := by
        rw [hcat]
        intro h
        cases h
        exact hc hemp
      have hcount : (if t.category = some c then 1 else 0) = 0 := by
        rw [if_neg hne]
      rw [countP_append_singleton, hcount, Nat.add_zero]
      simpa [catStep, hcat, hemp] using h3 c hc
    · have hstep : catStep m t = mapSet m c0 ((mapGet m c0).getD 0 + 1) := by
        simp [catStep, hcat, hemp]
      refine ⟨?_, ?_, ?_⟩
      · rw [hstep]; exact mapSet_pairwise m c0 _ h1
      · intro c hc
        have hne : c ≠ c0 := by
          intro h
          rw [h] at hc
          exact hemp hc
        rw [hstep, mapGet_mapSet_other m c0 c _ hne]
        exact h2 c hc
      · intro c hc
        by_cases hcc : c = c0
        · subst hcc
          have hcount : (if t.category = some c then 1 else 0) = 1 := by
            rw [hcat]; simp
          rw [hstep, mapGet_mapSet_self, countP_append_singleton, hcount]
          have hprev := h3 c hc
          by_cases hz : done.countP (fun u => u.category = some c) = 0
          · rw [hz]
            rw [hz, if_pos rfl] at hprev
            rw [hprev]
            simp
          · rw [if_neg hz] at hprev
            rw [hprev]
            have : done.countP (fun u => u.category = some c) + 1 ≠ 0 := by omega
            rw [if_neg this]
            simp
        · have hne2 : ¬ t.category = some c := by
            rw [hcat]
            intro h
            cases h
            exact hcc rfl
          have hcount : (if t.category = some c then 1 else 0) = 0 := by
            rw [if_neg hne2]
          rw [hstep, mapGet_mapSet_other m c0 c _ hcc,
            countP_append_singleton, hcount, Nat.add_zero]
          exact h3 c hc

theorem catInv_foldl :
    ∀ (ts done : List Task) (m : List (String × Nat)),
      m.Pairwise (fun p q => p.1 ≠ q.1) →
      (∀ c : String, c.isEmpty → mapGet m c = none) →
      (∀ c : String, ¬ c.isEmpty = true →
        mapGet m c =
          (if done.countP (fun u => u.category = some c) = 0 then none
           else some (done.countP (fun u => u.category = some c)))) →
      (ts.foldl catStep m).Pairwise (fun p q => p.1 ≠ q.1) ∧
      (∀ c : String, c.isEmpty → mapGet (ts.foldl catStep m) c = none) ∧
      (∀ c : String, ¬ c.isEmpty = true →
        mapGet (ts.foldl catStep m) c =
          (if (done ++ ts).countP (fun u => u.category = some c) = 0 then none
           else some ((done ++ ts).countP (fun u => u.category = some c)))) := by
  intro ts
  induction ts with
  | nil =>
    intro done m h1 h2 h3
    refine ⟨h1, h2, ?_⟩
    intro c hc
    simpa using h3 c hc
  | cons t ts ih =>
    intro done m h1 h2 h3
    have step := catStep_inv done m t h1 h2 h3
    have := ih (done ++ [t]) (catStep m t) step.1 step.2.1 step.2.2
    simp only [List.foldl_cons]
    refine ⟨this.1, this.2.1, ?_⟩
    intro c hc
    have h := this.2.2 c hc
    rwa [List.append_assoc, List.singleton_append] at h

theorem catPairs_sorted (m : List (String × Nat)) :
    (stableSort (fun p q => strLe p.1 q.1) m).Pairwise
      (fun p q => strLe p.1 q.1 = true) := by
  apply stableSort_pairwise
  · intro x y z hxy hyz
    exact strLe_trans hxy hyz
  · intro x y
    exact strLe_total x.1 y.1

/-- Characterization of the category-count map: keys are pairwise distinct,
and `(c, n)` is an entry exactly when `c` is a truthy category with a
positive count `n` equal to the number of tasks whose category is `c`. -/
theorem categoriesMap_spec (tasks : List Task) :
    (categoriesMap tasks).Pairwise (fun p q => p.1 ≠ q.1) ∧
    (∀ (c : String) (n : Nat), (c, n) ∈ categoriesMap tasks ↔
      (¬ c.isEmpty = true ∧ 0 < n ∧
        n = tasks.countP (fun u => u.category = some c))) := by
  have h := catInv_foldl tasks [] []
    (by simp) (by intro c _; rfl)
    (by intro c _; simp [mapGet])
  rw [List.nil_append] at h
  have hEq : List.foldl catStep [] tasks = categoriesMap tasks := rfl
  rw [hEq] at h
  refine ⟨h.1, ?_⟩
  intro c n
  constructor
  · intro hmem
    have hget : mapGet (categoriesMap tasks) c = some n :=
      mapGet_of_mem _ h.1 c n hmem
    by_cases hemp : c.isEmpty
    · rw [h.2.1 c hemp] at hget
      cases hget
    · have h3 := h.2.2 c hemp
      rw [h3] at hget
      by_cases hz : tasks.countP (fun u => u.category = some c) = 0
      · rw [if_pos hz] at hget
        cases hget
      · rw [if_neg hz] at hget
        cases hget
        exact ⟨hemp, by omega, rfl⟩
  · rintro ⟨hemp, hpos, rfl⟩
    apply mem_of_mapGet
    rw [h.2.2 c hemp, if_neg (by omega)]

/-- The reported completion rate is the exact percentage to one decimal
place: the displayed value `rateTenths / 10` differs from the exact
percentage `completed * 100 / total` by at most `1/20` (half of the last
displayed digit). -/
theorem rateTenths_bound (c T : Nat) (hT : 0 < T) :
    |(rateTenths c T : ℚ) / 10 - (c : ℚ) * 100 / (T : ℚ)| ≤ 1 / 20 := by
  unfold rateTenths
  have hb : 0 < 2 * T := by omega
  have hdm := Nat.div_add_mod (2 * (c * 1000) + T) (2 * T)
  have hmlt : (2 * (c * 1000) + T) % (2 * T) < 2 * T :=
    Nat.mod_lt _ hb
  set r := (2 * (c * 1000) + T) / (2 * T) with hr
  set rm := (2 * (c * 1000) + T) % (2 * T) with hrm
  have hTQ : (T : ℚ) ≠ 0 := by positivity
  have key : (2 * T * r : ℚ) + rm = 2 * (c * 1000) + T := by
    exact_mod_cast hdm
  have h1 : (r : ℚ) / 10 - (c : ℚ) * 100 / (T : ℚ)
      = ((T : ℚ) - rm) / (20 * T) := by
    field_simp
    linear_combination (10 * (T : ℚ)) * key
  rw [h1, abs_div, abs_of_pos (show (0 : ℚ) < 20 * T by positivity),
    div_le_div_iff (by positivity) (by norm_num)]
  have hrmQ : (0 : ℚ) ≤ rm := by positivity
  have hrmlt : (rm : ℚ) < 2 * T := by exact_mod_cast hmlt
  have habs : |(T : ℚ) - rm| ≤ T := by
    rw [abs_le]
    constructor <;> linarith
  linarith

/-! ### Concrete data for the closed witness and counterexample theorems -/

/-- A concrete pending task with no due date. -/
def wTask : Task :=
  { id := "aaaaaaaa-0000-4000-8000-000000000001"
    title := "write report"
    description := none
    priority := Priority.high
    category := none
    dueDate := none
    status := Status.pending
    createdAt := "2025-01-01T00:00:00.000Z"
    completedAt := none }

/-- A concrete completed task. -/
def wTaskDone : Task :=
  { wTask with
    id := "bbbbbbbb-0000-4000-8000-000000000002"
    title := "ship release"
    status := Status.completed
    completedAt := some "2025-01-02T00:00:00.000Z" }

/-- An update request that sets only `status = completed`. -/
def uArgsCompleted : UpdateArgs :=
  { taskId := "aaaaaaaa"
    title := none
    description := none
    priority := none
    category := none
    dueDate := none
    status := some Status.completed }

/-- An update request that sets only `status = pending`. -/
def uArgsPending : UpdateArgs :=
  { uArgsCompleted with status := some Status.pending }

/-- An update request with no status field (title only). -/
def uArgsNoStatus : UpdateArgs :=
  { uArgsCompleted with title := some "new title", status := none }

/-- First pending task of the 3-completed/2-pending example collection:
long overdue, category "work". -/
def exPend1 : Task :=
  { wTask with
    id := "cccccccc-0000-4000-8000-000000000003"
    title := "p1"
    category := some "work"
    dueDate := some "2020-01-01" }

/-- Second pending task of the 3-completed/2-pending example collection:
due within the example week, category "home". -/
def exPend2 : Task :=
  { wTask with
    id := "dddddddd-0000-4000-8000-000000000004"
    title := "p2"
    category := some "home"
    dueDate := some "2025-03-05" }

/-- An equal-priority companion of `wTask` whose actual `dueDate` is the
sentinel value itself (accepted by the `YYYY-MM-DD` schema pattern). -/
def cexWithDue : Task :=
  { wTask with
    id := "11111111-0000-4000-8000-000000000011"
    title := "sentinel due"
    dueDate := some "9999-99-99" }

/-- A collection with 3 completed and 2 pending tasks. -/
def exStore32 : TaskStorage :=
  { tasks :=
      [{ wTaskDone with id := "eeeeeeee-0000-4000-8000-000000000005" }
       , exPend1
       , { wTaskDone with id := "ffffffff-0000-4000-8000-000000000006" }
       , exPend2
       , { wTaskDone with id := "99999999-0000-4000-8000-000000000007" }]
    lastUpdated := "T0" }

theorem updateFirstWith_of_all_false (p : Task → Bool) (f : Task → Task) :
    ∀ ts, (∀ t ∈ ts, p t = false) → updateFirstWith p f ts = none := by
  intro ts
  induction ts with
  | nil => intro _; rfl
  | cons t ts ih =>
    intro h
    have hpt := h t (List.mem_cons_self t ts)
    simp only [updateFirstWith, hpt]
    rw [ih (fun u hu => h u (List.mem_cons_of_mem _ hu))]
    simp

theorem removeFirstWith_of_all_false (p : Task → Bool) :
    ∀ ts, (∀ t ∈ ts, p t = false) → removeFirstWith p ts = none := by
  intro ts
  induction ts with
  | nil => intro _; rfl
  | cons t ts ih =>
    intro h
    have hpt := h t (List.mem_cons_self t ts)
    simp only [removeFirstWith, hpt]
    rw [ih (fun u hu => h u (List.mem_cons_of_mem _ hu))]
    simp

theorem updateFirstWith_split (p : Task → Bool) (f : Task → Task) :
    ∀ (l1 : List Task) (t : Task) (l2 : List Task),
      (∀ u ∈ l1, p u = false) → p t = true →
      updateFirstWith p f (l1 ++ t :: l2) = some (l1 ++ f t :: l2, f t) := by
  intro l1
  induction l1 with
  | nil =>
    intro t l2 _ hpt
    simp [updateFirstWith, hpt]
  | cons a l1 ih =>
    intro t l2 hl1 hpt
    have hpa := hl1 a (List.mem_cons_self a l1)
    simp only [List.cons_append, updateFirstWith, hpa]
    simp only [List.append_eq]
    rw [ih t l2 (fun u hu => hl1 u (List.mem_cons_of_mem _ hu)) hpt]
    simp

theorem removeFirstWith_split (p : Task → Bool) :
    ∀ (l1 : List Task) (t : Task) (l2 : List Task),
      (∀ u ∈ l1, p u = false) → p t = true →
      removeFirstWith p (l1 ++ t :: l2) = some (l1 ++ l2, t) := by
  intro l1
  induction l1 with
  | nil =>
    intro t l2 _ hpt
    simp [removeFirstWith, hpt]
  | cons a l1 ih =>
    intro t l2 hl1 hpt
    have hpa := hl1 a (List.mem_cons_self a l1)
    simp only [List.cons_append, removeFirstWith, hpa]
    simp only [List.append_eq]
    rw [ih t l2 (fun u hu => hl1 u (List.mem_cons_of_mem _ hu)) hpt]
    simp

/-- The data-model invariant of the specification: `completedAt` is present
exactly when the current status is `completed`. -/
def completedInv (t : Task) : Prop :=
  t.completedAt.isSome ↔ t.status = Status.completed

theorem strFalsy_false_isSome {o : Option String} (h : strFalsy o = false) :
    o.isSome := by
  cases o with
  | none => simp [strFalsy] at h
  | some s => rfl

theorem applyStatusUpdate_inv (now : String) (st? : Option Status) (t : Task)
    (h : completedInv t) : completedInv (applyStatusUpdate now st? t) := by
  cases st? with
  | none => simpa [applyStatusUpdate] using h
  | some st =>
    by_cases hc : st = Status.completed
    · subst hc
      by_cases hf : strFalsy t.completedAt
      · simp [applyStatusUpdate, hf, completedInv]
      · show completedInv (if strFalsy t.completedAt = true then
            { t with status := Status.completed, completedAt := some now }
          else { t with status := Status.completed })
        rw [if_neg hf]
        unfold completedInv
        exact ⟨fun _ => rfl,
          fun _ => strFalsy_false_isSome (Bool.eq_false_iff.mpr hf)⟩
    · simp [applyStatusUpdate, hc, completedInv]

theorem applyUpdate_inv (now : String) (args : UpdateArgs) (t : Task)
    (h : completedInv t) : completedInv (applyUpdate now args t) := by
  unfold applyUpdate
  apply applyStatusUpdate_inv
  unfold completedInv
  rw [applyFieldUpdates_completedAt, applyFieldUpdates_status]
  exact h

theorem updateFirstWith_mem (p : Task → Bool) (f : Task → Task) :
    ∀ (ts ts' : List Task) (u : Task), updateFirstWith p f ts = some (ts', u) →
      ∀ v ∈ ts', v ∈ ts ∨ ∃ t ∈ ts, v = f t := by
  intro ts
  induction ts with
  | nil => intro ts' u h; cases h
  | cons a as ih =>
    intro ts' u h v hv
    by_cases hpa : p a
    · simp only [updateFirstWith, if_pos hpa] at h
      cases h
      rcases List.mem_cons.mp hv with rfl | hvs
      · exact Or.inr ⟨a, List.mem_cons_self a as, rfl⟩
      · exact Or.inl (List.mem_cons_of_mem _ hvs)
    · simp only [updateFirstWith, if_neg hpa] at h
      cases hrec : updateFirstWith p f as with
      | none => rw [hrec] at h; cases h
      | some pair =>
        rw [hrec] at h
        cases h
        rcases List.mem_cons.mp hv with rfl | hvs
        · exact Or.inl (List.mem_cons_self v as)
        · rcases ih pair.1 pair.2 (by rw [hrec]) v hvs with hmem | ⟨t, ht, rfl⟩
          · exact Or.inl (List.mem_cons_of_mem _ hmem)
          · exact Or.inr ⟨t, List.mem_cons_of_mem _ ht, rfl⟩

theorem removeFirstWith_mem (p : Task → Bool) :
    ∀ (ts ts' : List Task) (u : Task), removeFirstWith p ts = some (ts', u) →
      ∀ v ∈ ts', v ∈ ts := by
  intro ts
  induction ts with
  | nil => intro ts' u h; cases h
  | cons a as ih =>
    intro ts' u h v hv
    by_cases hpa : p a
    · simp only [removeFirstWith, if_pos hpa] at h
      cases h
      exact List.mem_cons_of_mem _ hv
    · simp only [removeFirstWith, if_neg hpa] at h
      cases hrec : removeFirstWith p as with
      | none => rw [hrec] at h; cases h
      | some pair =>
        rw [hrec] at h
        cases h
        rcases List.mem_cons.mp hv with rfl | hvs
        · exact List.mem_cons_self v as
        · exact List.mem_cons_of_mem _ (ih pair.1 pair.2 (by rw [hrec]) v hvs)

theorem foldl_upsert_frame (r : Task) :
    ∀ (ts rows : List Task), r ∈ rows → (∀ u ∈ ts, u.id ≠ r.id) →
      r ∈ ts.foldl upsertRow rows := by
  intro ts
  induction ts with
  | nil => intro rows hr _; simpa using hr
  | cons t ts ih =>
    intro rows hr hne
    simp only [List.foldl_cons]
    apply ih
    · unfold upsertRow
      apply List.mem_append_left
      apply List.mem_filter.mpr
      refine ⟨hr, ?_⟩
      simp only [decide_eq_true_eq]
      exact fun h => (hne t (List.mem_cons_self t ts)) h.symm
    · intro u hu
      exact hne u (List.mem_cons_of_mem _ hu)

theorem foldl_upsert_mem :
    ∀ (ts rows : List Task), (ts.map Task.id).Nodup →
      ∀ t ∈ ts, t ∈ ts.foldl upsertRow rows := by
  intro ts
  induction ts with
  | nil => intro rows _ t ht; cases ht
  | cons a as ih =>
    intro rows hnd t ht
    have hnd' : a.id ∉ as.map Task.id ∧ (as.map Task.id).Nodup := by
      rw [List.map_cons] at hnd
      exact List.nodup_cons.mp hnd
    simp only [List.foldl_cons]
    rcases List.mem_cons.mp ht with rfl | hmem
    · apply foldl_upsert_frame
      · unfold upsertRow
        exact List.mem_append_right _ (List.mem_singleton_self t)
      · intro u hu he
        exact hnd'.1 (he ▸ List.mem_map_of_mem Task.id hu)
    · exact ih (upsertRow rows a) hnd'.2 t hmem

/-! ### Claims -/

/-- **C1.** For every task resolved by the update operation (the theorem for
C4 shows `updateTask` applies `applyUpdate` to the resolved task) and every
update request: setting status to `completed` while `completedAt` is absent
stamps `completedAt = now`; setting status to any other value clears
`completedAt` unconditionally; a request without a status field leaves
`completedAt` unchanged regardless of the other fields updated. -/
theorem C1_update_completedAt (now : String) (args : UpdateArgs) (t : Task) :
    (args.status = some Status.completed → t.completedAt = none →
      (applyUpdate now args t).completedAt = some now) ∧
    (∀ st, args.status = some st → st ≠ Status.completed →
      (applyUpdate now args t).completedAt = none) ∧
    (args.status = none → (applyUpdate now args t).completedAt = t.completedAt) := by
  unfold applyUpdate
  refine ⟨?_, ?_, ?_⟩
  · intro hst hc
    rw [hst]
    show (applyStatusUpdate now (some Status.completed) (applyFieldUpdates args t)).completedAt
      = some now
    unfold applyStatusUpdate
    have hfc := applyFieldUpdates_completedAt args t
    simp only [hfc, hc]
    rfl
  · intro st hst hne
    rw [hst]
    unfold applyStatusUpdate
    simp only [if_neg hne]
  · intro hst
    rw [hst]
    unfold applyStatusUpdate
    exact applyFieldUpdates_completedAt args t

/-- Closed witness for C1 at concrete inputs. -/
theorem C1_update_completedAt_witness :
    (applyUpdate "T1" uArgsCompleted wTask).completedAt = some "T1" ∧
    (applyUpdate "T1" uArgsPending wTaskDone).completedAt = none ∧
    (applyUpdate "T1" uArgsNoStatus wTaskDone).completedAt
      = wTaskDone.completedAt :=
  ⟨(C1_update_completedAt "T1" uArgsCompleted wTask).1 rfl rfl,
   (C1_update_completedAt "T1" uArgsPending wTaskDone).2.1 Status.pending rfl
     (by decide),
   (C1_update_completedAt "T1" uArgsNoStatus wTaskDone).2.2 rfl⟩

/-- **C6.** The snapshot-file backend's load never raises (it is a total
function into `TaskStorage × List String`): an absent document yields the
empty collection with `lastUpdated = now` and no log; a deserialization
failure logs the error and yields the same empty collection; a valid
document is returned as-is. -/
theorem C6_loadTasks_never_raises (now : String) :
    loadTasksFile now DiskFile.absent = (emptyStorage now, []) ∧
    (∀ err, loadTasksFile now (DiskFile.invalid err)
      = (emptyStorage now, ["Error loading tasks: " ++ err])) ∧
    (∀ s, loadTasksFile now (DiskFile.valid s) = (s, [])) ∧
    (emptyStorage now).tasks = [] ∧
    (emptyStorage now).lastUpdated = now :=
  ⟨rfl, fun _ => rfl, fun _ => rfl, rfl, rfl⟩

/-- **C2, counterexample.** With the backend-selection value `"database"` the
Storage Router selects the indexed-table backend, but the operation layer's
storage binding (`src/tools.ts` line 12 imports `./storage.js`) is the
snapshot-file backend, so the operations do not use the backend the router
selected. -/
theorem C2_counterexample :
    routerBackend (some "database") = BackendKind.database ∧
    toolsBackend (some "database") = BackendKind.file ∧
    toolsBackend (some "database") ≠ routerBackend (some "database") := by
  refine ⟨?_, rfl, ?_⟩ <;> decide

/-- **C2, amended.** For every backend-selection value, the eight operations
load and persist through the snapshot-file backend — the operation layer's
module binding does not depend on the configuration; the router (only the
read-only resource surface of `src/index.ts`) selects the indexed-table
backend exactly when the lowercased value is `"database"` or `"db"`. The
binding matters: the two backends' save semantics differ on the same
collection (full overwrite vs upsert-only). -/
theorem C2_operations_use_file_backend :
    (∀ env, toolsBackend env = BackendKind.file) ∧
    (∀ env, routerBackend env = BackendKind.database ↔
      (strToLower (env.getD "file") = "database" ∨
        strToLower (env.getD "file") = "db")) ∧
    (saveTasksFile "T1" { tasks := [], lastUpdated := "T0" }).tasks = [] ∧
    saveTasksDb [wTaskDone] { tasks := [], lastUpdated := "T0" }
      = [wTaskDone] := by
  refine ⟨fun _ => rfl, fun env => ?_, rfl, rfl⟩
  unfold routerBackend
  by_cases h : strToLower (env.getD "file") = "database" ∨
      strToLower (env.getD "file") = "db"
  · rw [if_pos h]
    exact ⟨fun _ => h, fun _ => rfl⟩
  · rw [if_neg h]
    constructor
    · intro hc; exact absurd hc (by decide)
    · intro hc; exact absurd hc h

/-- **C10.** For every `taskId` argument shorter than 8 characters, the
update, delete and complete pipelines raise the schema validation error
(`z.string().min(8)`) before any load, prefix lookup or persist: the checked
operation returns `Except.error` and produces no reply and no new stored
collection. -/
theorem C10_short_taskId (now : String) (args : UpdateArgs) (tid : String)
    (s : TaskStorage) (hu : args.taskId.length < 8) (ht : tid.length < 8) :
    updateTaskChecked now args s
      = Except.error "Task ID must be at least 8 characters" ∧
    deleteTaskChecked now tid s
      = Except.error "Task ID must be at least 8 characters" ∧
    completeTaskChecked now tid s
      = Except.error "Task ID must be at least 8 characters" := by
  have h1 : parseTaskIdField args.taskId
      = Except.error "Task ID must be at least 8 characters" := by
    unfold parseTaskIdField
    rw [if_neg (by omega)]
  have h2 : parseTaskIdField tid
      = Except.error "Task ID must be at least 8 characters" := by
    unfold parseTaskIdField
    rw [if_neg (by omega)]
  refine ⟨?_, ?_, ?_⟩ <;>
    simp [updateTaskChecked, deleteTaskChecked, completeTaskChecked, h1, h2]

/-- Closed witness for C10: a 5-character prefix is rejected by all three
checked operations. -/
theorem C10_short_taskId_witness :
    updateTaskChecked "T1" { uArgsCompleted with taskId := "aaaaa" }
        { tasks := [wTask], lastUpdated := "T0" }
      = Except.error "Task ID must be at least 8 characters" ∧
    deleteTaskChecked "T1" "aaaaa" { tasks := [wTask], lastUpdated := "T0" }
      = Except.error "Task ID must be at least 8 characters" ∧
    completeTaskChecked "T1" "aaaaa" { tasks := [wTask], lastUpdated := "T0" }
      = Except.error "Task ID must be at least 8 characters" :=
  C10_short_taskId "T1" { uArgsCompleted with taskId := "aaaaa" } "aaaaa"
    { tasks := [wTask], lastUpdated := "T0" } (by decide) (by decide)

/-- **C3.** For every prior table state and every input collection, the
indexed-table backend's `saveTasks` upserts (insert-or-replace by the `id`
primary key, in one transaction — a single function application in the pure
model) every task of the input collection: when the input's ids are
distinct, every input task is a row afterwards; and every prior row whose
id does not occur in the input collection is still present afterwards with
all its fields unchanged (the row itself is a member of the result —
`saveTasks` never deletes rows absent from the input). -/
theorem C3_saveTasksDb_upsert_frame (rows : List Task) (s : TaskStorage) :
    (∀ r ∈ rows, (∀ t ∈ s.tasks, t.id ≠ r.id) → r ∈ saveTasksDb rows s) ∧
    ((s.tasks.map Task.id).Nodup → ∀ t ∈ s.tasks, t ∈ saveTasksDb rows s) := by
  constructor
  · intro r hr hne
    exact foldl_upsert_frame r s.tasks rows hr
      (fun u hu => fun he => (hne u hu) he)
  · intro hnd t ht
    exact foldl_upsert_mem s.tasks rows hnd t ht

/-- Closed witness for C3: saving the collection `[wTask]` over a table
holding the unrelated row `wTaskDone` keeps `wTaskDone` unchanged and
stores `wTask`. -/
theorem C3_saveTasksDb_upsert_frame_witness :
    wTaskDone ∈ saveTasksDb [wTaskDone]
        { tasks := [wTask], lastUpdated := "T0" } ∧
    wTask ∈ saveTasksDb [wTaskDone]
        { tasks := [wTask], lastUpdated := "T0" } :=
  ⟨(C3_saveTasksDb_upsert_frame [wTaskDone]
      { tasks := [wTask], lastUpdated := "T0" }).1 wTaskDone (by decide)
      (by decide),
   (C3_saveTasksDb_upsert_frame [wTaskDone]
      { tasks := [wTask], lastUpdated := "T0" }).2 (by decide) wTask
      (by decide)⟩

/-- **C8.** For every collection, `clearCompleted` removes exactly the tasks
whose status is `completed` (all others remain, in order), persists the
result (`lastUpdated` stamped), and reports the removed count together with
the remaining count, or the distinct nothing-to-clear message when the
removed count is zero. -/
theorem C8_clearCompleted (now : String) (s : TaskStorage) :
    (clearCompleted now s).store.tasks
        = s.tasks.filter (fun t => ¬ t.status = Status.completed) ∧
    (clearCompleted now s).store.lastUpdated = now ∧
    (0 < s.tasks.countP (fun t => t.status = Status.completed) →
      (clearCompleted now s).text =
        "🧹 Cleared "
          ++ toString (s.tasks.countP (fun t => t.status = Status.completed))
          ++ " completed task(s). "
          ++ toString (s.tasks.countP (fun t => ¬ t.status = Status.completed))
          ++ " active task(s) remaining.") ∧
    (s.tasks.countP (fun t => t.status = Status.completed) = 0 →
      (clearCompleted now s).text = "No completed tasks to clear.") := by
  have hsplit := List.length_eq_countP_add_countP
    (p := fun t => decide (t.status = Status.completed)) (l := s.tasks)
  have hrem : (s.tasks.filter (fun t => ¬ t.status = Status.completed)).length
      = s.tasks.countP (fun t => ¬ t.status = Status.completed) :=
    (List.countP_eq_length_filter _ _).symm
  have hcnt : s.tasks.length
        - (s.tasks.filter (fun t => ¬ t.status = Status.completed)).length
      = s.tasks.countP (fun t => t.status = Status.completed) := by
    rw [hrem]
    have : s.tasks.countP (fun t => ¬ t.status = Status.completed)
        = s.tasks.countP (fun t => ¬ decide (t.status = Status.completed)) := by
      apply List.countP_congr
      intro t _
      simp
    omega
  refine ⟨rfl, rfl, ?_, ?_⟩
  · intro hpos
    show (if 0 < s.tasks.length
        - (s.tasks.filter (fun t => ¬ t.status = Status.completed)).length
      then _ else _) = _
    rw [hcnt, if_pos hpos, hrem]
  · intro hzero
    show (if 0 < s.tasks.length
        - (s.tasks.filter (fun t => ¬ t.status = Status.completed)).length
      then _ else _) = _
    rw [hcnt, hzero]
    simp

/-- Closed witness for C8, the example of the claim: 3 completed and 2
pending tasks leave exactly 2 tasks and report
"Cleared 3 completed task(s). 2 active task(s) remaining." (prefixed by the
🧹 decoration the presentation layer adds). -/
theorem C8_clearCompleted_witness :
    (clearCompleted "T9" exStore32).store.tasks = [exPend1, exPend2] ∧
    (clearCompleted "T9" exStore32).text
      = "🧹 Cleared 3 completed task(s). 2 active task(s) remaining." := by
  constructor
  · rw [(C8_clearCompleted "T9" exStore32).1]
    decide
  · rw [(C8_clearCompleted "T9" exStore32).2.2.1 (by decide)]
    decide

/-- **C4.** For every collection and every `taskId` argument of at least 8
characters: update, delete and complete resolve the task as the first task
in collection order whose id starts with the prefix (an ambiguous prefix
silently resolves to the first match — the found case below holds for
whatever first match the split exhibits, with no uniqueness requirement);
when no task's id starts with the prefix, each operation returns the normal
not-found reply rather than raising, and the stored collection is exactly
the untouched prior state (no persist: `lastUpdated` is not even
restamped). -/
theorem C4_prefix_resolution (now : String) (args : UpdateArgs)
    (s : TaskStorage) (hlen : 8 ≤ args.taskId.length) :
    ((∀ t ∈ s.tasks, idMatches args.taskId t = false) →
      updateTask now args s
          = { store := s, text := notFoundText args.taskId } ∧
      deleteTask now args.taskId s
          = { store := s, text := notFoundText args.taskId } ∧
      completeTask now args.taskId s
          = { store := s, text := notFoundText args.taskId }) ∧
    (∀ l1 t l2, s.tasks = l1 ++ t :: l2 →
      (∀ u ∈ l1, idMatches args.taskId u = false) →
      idMatches args.taskId t = true →
      updateTask now args s
          = { store := { tasks := l1 ++ applyUpdate now args t :: l2
                         lastUpdated := now }
              text := "✅ Task updated successfully!\n\n"
                ++ formatTask (applyUpdate now args t) } ∧
      deleteTask now args.taskId s
          = { store := { tasks := l1 ++ l2, lastUpdated := now }
              text := "🗑️ Task \"" ++ t.title ++ "\" deleted successfully." } ∧
      completeTask now args.taskId s
          = { store := { tasks := l1 ++ completeFields now t :: l2
                         lastUpdated := now }
              text := "✅ Task completed!\n\n"
                ++ formatTask (completeFields now t) }) := by
  constructor
  · intro hnone
    refine ⟨?_, ?_, ?_⟩
    · unfold updateTask
      rw [updateFirstWith_of_all_false _ _ s.tasks hnone]
    · unfold deleteTask
      rw [removeFirstWith_of_all_false _ s.tasks hnone]
    · unfold completeTask
      rw [updateFirstWith_of_all_false _ _ s.tasks hnone]
  · intro l1 t l2 hsplit hl1 hpt
    refine ⟨?_, ?_, ?_⟩
    · unfold updateTask
      rw [hsplit, updateFirstWith_split _ _ l1 t l2 hl1 hpt]
      rfl
    · unfold deleteTask
      rw [hsplit, removeFirstWith_split _ l1 t l2 hl1 hpt]
      rfl
    · unfold completeTask
      rw [hsplit, updateFirstWith_split _ _ l1 t l2 hl1 hpt]
      rfl

/-- Closed witness for C4: in `[exPend1, exPend2]` the prefix
`"dddddddd"` resolves `exPend2` (first match after the non-matching
`exPend1`) for all three operations, and the prefix `"00000000"` matches
nothing, returning the not-found reply with the state untouched. -/
theorem C4_prefix_resolution_witness :
    updateTask "T3" { uArgsNoStatus with taskId := "dddddddd" }
        { tasks := [exPend1, exPend2], lastUpdated := "T0" }
      = { store :=
            { tasks := [exPend1,
                applyUpdate "T3" { uArgsNoStatus with taskId := "dddddddd" }
                  exPend2]
              lastUpdated := "T3" }
          text := "✅ Task updated successfully!\n\n"
            ++ formatTask (applyUpdate "T3"
                { uArgsNoStatus with taskId := "dddddddd" } exPend2) } ∧
    deleteTask "T3" "dddddddd"
        { tasks := [exPend1, exPend2], lastUpdated := "T0" }
      = { store := { tasks := [exPend1], lastUpdated := "T3" }
          text := "🗑️ Task \"" ++ exPend2.title ++ "\" deleted successfully." } ∧
    completeTask "T3" "00000000"
        { tasks := [exPend1, exPend2], lastUpdated := "T0" }
      = { store := { tasks := [exPend1, exPend2], lastUpdated := "T0" }
          text := notFoundText "00000000" } := by
  have hfound := (C4_prefix_resolution "T3"
      { uArgsNoStatus with taskId := "dddddddd" }
      { tasks := [exPend1, exPend2], lastUpdated := "T0" } (by decide)).2
      [exPend1] exPend2 [] rfl (by decide) (by decide)
  have hnone := (C4_prefix_resolution "T3"
      { uArgsNoStatus with taskId := "00000000" }
      { tasks := [exPend1, exPend2], lastUpdated := "T0" } (by decide)).1
      (by decide)
  exact ⟨hfound.1, hfound.2.1, hnone.2.2⟩

/-- **C7.** `completedAt` is present iff `status == completed`, preserved by
every operation given it holds of the loaded collection: create appends a
pending task with no `completedAt` (exhibited explicitly), update stamps or
clears `completedAt` in step with the status it sets, complete sets both
(exhibited explicitly), and the remaining persisting operations (delete,
clear-completed) only drop tasks — list, search and stats never persist. -/
theorem C7_completedAt_invariant (now newId : String) (cargs : CreateArgs)
    (uargs : UpdateArgs) (tid : String) (s : TaskStorage)
    (hinv : ∀ t ∈ s.tasks, completedInv t) :
    (∀ u ∈ (createTask now newId cargs s).store.tasks, completedInv u) ∧
    ((createTask now newId cargs s).store.tasks.getLast? =
      some { id := newId, title := cargs.title, description := cargs.description
             priority := cargs.priority, category := cargs.category
             dueDate := cargs.dueDate, status := Status.pending
             createdAt := now, completedAt := none }) ∧
    (∀ u ∈ (updateTask now uargs s).store.tasks, completedInv u) ∧
    (∀ u ∈ (deleteTask now tid s).store.tasks, completedInv u) ∧
    (∀ u ∈ (completeTask now tid s).store.tasks, completedInv u) ∧
    (∀ t, (completeFields now t).status = Status.completed ∧
      (completeFields now t).completedAt = some now) ∧
    (∀ u ∈ (clearCompleted now s).store.tasks, completedInv u) := by
  refine ⟨?_, ?_, ?_, ?_, ?_, fun t => ⟨rfl, rfl⟩, ?_⟩
  · intro u hu
    rcases List.mem_append.mp hu with hold | hnew
    · exact hinv u hold
    · rcases List.mem_singleton.mp hnew with rfl
      exact ⟨fun h => by simp [Option.isSome] at h, fun h => by cases h⟩
  · show (s.tasks ++ [_]).getLast? = _
    rw [List.getLast?_append]
    rfl
  · intro u hu
    unfold updateTask at hu
    cases hres : updateFirstWith (idMatches uargs.taskId)
        (applyUpdate now uargs) s.tasks with
    | none =>
      rw [hres] at hu
      exact hinv u hu
    | some pair =>
      rw [hres] at hu
      rcases updateFirstWith_mem _ _ s.tasks pair.1 pair.2
          (by rw [hres]) u hu with hmem | ⟨t, ht, rfl⟩
      · exact hinv u hmem
      · exact applyUpdate_inv now uargs t (hinv t ht)
  · intro u hu
    unfold deleteTask at hu
    cases hres : removeFirstWith (idMatches tid) s.tasks with
    | none =>
      rw [hres] at hu
      exact hinv u hu
    | some pair =>
      rw [hres] at hu
      exact hinv u (removeFirstWith_mem _ s.tasks pair.1 pair.2
        (by rw [hres]) u hu)
  · intro u hu
    unfold completeTask at hu
    cases hres : updateFirstWith (idMatches tid) (completeFields now) s.tasks with
    | none =>
      rw [hres] at hu
      exact hinv u hu
    | some pair =>
      rw [hres] at hu
      rcases updateFirstWith_mem _ _ s.tasks pair.1 pair.2
          (by rw [hres]) u hu with hmem | ⟨t, ht, rfl⟩
      · exact hinv u hmem
      · exact ⟨fun _ => rfl, fun _ => rfl⟩
  · intro u hu
    exact hinv u (List.mem_of_mem_filter hu)

/-- Closed witness for C7: completing the pending `wTask` and updating it to
`completed` both yield tasks satisfying the invariant, starting from a
collection satisfying it. -/
theorem C7_completedAt_invariant_witness :
    completedInv (applyUpdate "T1" uArgsCompleted wTask) ∧
    completedInv (completeFields "T1" wTask) :=
  ⟨(C7_completedAt_invariant "T1" "eeeeeeee-0000-4000-8000-00000000000e"
      { title := "t", description := none, priority := Priority.medium
        category := none, dueDate := none }
      uArgsCompleted "aaaaaaaa" { tasks := [wTask], lastUpdated := "T0" }
      (by intro t ht; rcases List.mem_singleton.mp ht with rfl; exact
        ⟨fun h => by simp [wTask] at h, fun h => by simp [wTask] at h⟩)).2.2.1
      (applyUpdate "T1" uArgsCompleted wTask) (by decide),
   (C7_completedAt_invariant "T1" "eeeeeeee-0000-4000-8000-00000000000e"
      { title := "t", description := none, priority := Priority.medium
        category := none, dueDate := none }
      uArgsCompleted "aaaaaaaa" { tasks := [wTask], lastUpdated := "T0" }
      (by intro t ht; rcases List.mem_singleton.mp ht with rfl; exact
        ⟨fun h => by simp [wTask] at h, fun h => by simp [wTask] at h⟩)).2.2.2.2.1
      (completeFields "T1" wTask) (by decide)⟩

/-- **C5, counterexample.** The final clause of the claim fails: with two
equal-priority tasks, the first lacking a `dueDate` and the second having
the (schema-valid) `dueDate` "9999-99-99", the comparator ties — the
missing date is replaced by the same sentinel — and the stable sort keeps
input order, so the task lacking a `dueDate` is output *before* an
equal-priority task that has one, not after. -/
theorem C5_counterexample :
    listTasks { status := none, priority := none, category := none }
        { tasks := [wTask, cexWithDue], lastUpdated := "T0" }
      = [wTask, cexWithDue] ∧
    wTask.dueDate = none ∧
    cexWithDue.dueDate = some "9999-99-99" ∧
    wTask.priority = cexWithDue.priority := by
  refine ⟨by decide, rfl, rfl, rfl⟩

/-- **C5, amended.** Every filtered task list produced by the list operation
is a permutation of the filtered input, sorted ascending by the comparator
(priority rank high=0 medium=1 low=2, ties by due-date key ascending, a
missing due date keyed by the sentinel "9999-99-99"); consequently a task
lacking a due date sorts after all tasks of equal priority whose due-date
key is lexicographically *strictly before* the sentinel — a task whose
actual `dueDate` is the sentinel itself ties and stays in input order. -/
theorem C5_list_sorted (args : ListArgs) (s : TaskStorage) :
    List.Perm (listTasks args s) (listFiltered args s.tasks) ∧
    (listTasks args s).Pairwise (fun a b => taskLe a b = true) ∧
    (listTasks args s).Pairwise (fun a b =>
      a.dueDate = none → priorityOrder a.priority = priorityOrder b.priority →
        strLe "9999-99-99" (dueDateKey b) = true) := by
  refine ⟨stableSort_perm _ _,
    stableSort_pairwise taskLe (fun x y z hxy hyz => taskLe_trans hxy hyz)
      taskLe_total (listFiltered args s.tasks), ?_⟩
  refine List.Pairwise.imp ?_
    (stableSort_pairwise taskLe (fun x y z hxy hyz => taskLe_trans hxy hyz)
      taskLe_total (listFiltered args s.tasks))
  intro a b hab hnone hrank
  unfold taskLe at hab
  rw [if_neg (by omega), if_neg (by omega)] at hab
  have hkey : dueDateKey a = "9999-99-99" := by
    unfold dueDateKey
    rw [hnone]
  rwa [hkey] at hab

/-- **C9.** The stats operation computes over the entire unfiltered
collection: an empty collection short-circuits to the "no tasks yet"
message and nothing else is a no-tasks reply; otherwise the report carries
the total count, the counts per status and per priority, the overdue count
(tasks not completed whose present, non-empty `dueDate` is lexicographically
strictly before `today`), the due-soon count (tasks not completed whose
`dueDate` lies within `today` through `oneWeekFromNow` inclusive — the code
derives `oneWeekFromNow` from the clock as today+7 days), the per-category
counts exactly for the categories with at least one task, with pairwise
distinct keys sorted alphabetically, and the completion rate, correct to
one decimal place of the exact percentage `completed/total * 100`. -/
theorem C9_stats (today oneWeekFromNow : String) (s : TaskStorage) :
    (s.tasks = [] ↔ getTaskStats today oneWeekFromNow s
      = StatsResult.noTasks
          "No tasks yet. Create your first task to get started!") ∧
    (∀ msg, getTaskStats today oneWeekFromNow s = StatsResult.noTasks msg →
      s.tasks = []) ∧
    (∀ st, getTaskStats today oneWeekFromNow s = StatsResult.report st →
      st.total = s.tasks.length ∧
      st.pending = s.tasks.countP (fun t => t.status = Status.pending) ∧
      st.in_progress
        = s.tasks.countP (fun t => t.status = Status.in_progress) ∧
      st.completed = s.tasks.countP (fun t => t.status = Status.completed) ∧
      st.high = s.tasks.countP (fun t => t.priority = Priority.high) ∧
      st.medium = s.tasks.countP (fun t => t.priority = Priority.medium) ∧
      st.low = s.tasks.countP (fun t => t.priority = Priority.low) ∧
      st.overdue = s.tasks.countP (isOverdue today) ∧
      (∀ t : Task, isOverdue today t = true ↔
        (¬ t.status = Status.completed ∧
          ∃ d, t.dueDate = some d ∧ ¬ d.isEmpty = true ∧
            strLt d today = true)) ∧
      st.dueSoon = s.tasks.countP (isDueSoon today oneWeekFromNow) ∧
      (∀ t : Task, isDueSoon today oneWeekFromNow t = true ↔
        (¬ t.status = Status.completed ∧
          ∃ d, t.dueDate = some d ∧ ¬ d.isEmpty = true ∧
            strLe today d = true ∧ strLe d oneWeekFromNow = true)) ∧
      st.categories.Pairwise (fun p q => strLe p.1 q.1 = true) ∧
      st.categories.Pairwise (fun p q => p.1 ≠ q.1) ∧
      (∀ (c : String) (n : Nat), (c, n) ∈ st.categories ↔
        (¬ c.isEmpty = true ∧ 0 < n ∧
          n = s.tasks.countP (fun t => t.category = some c))) ∧
      st.completionRateTenths
        = rateTenths (s.tasks.countP (fun t => t.status = Status.completed))
            s.tasks.length ∧
      |(st.completionRateTenths : ℚ) / 10
          - (st.completed : ℚ) * 100 / (st.total : ℚ)| ≤ 1 / 20) := by
  by_cases hemp : s.tasks = []
  · have hlen : s.tasks.length = 0 := by rw [hemp]; rfl
    have hres : getTaskStats today oneWeekFromNow s
        = StatsResult.noTasks
            "No tasks yet. Create your first task to get started!" := by
      unfold getTaskStats
      rw [if_pos hlen]
    refine ⟨⟨fun _ => hres, fun _ => hemp⟩, fun _ _ => hemp, ?_⟩
    intro st hst
    rw [hres] at hst
    cases hst
  · have hlen : ¬ s.tasks.length = 0 := by
      intro h
      exact hemp (List.length_eq_zero.mp h)
    have hres : getTaskStats today oneWeekFromNow s
        = StatsResult.report
          { total := s.tasks.length
            pending :=
              (s.tasks.filter (fun t => t.status = Status.pending)).length
            in_progress :=
              (s.tasks.filter (fun t => t.status = Status.in_progress)).length
            completed :=
              (s.tasks.filter (fun t => t.status = Status.completed)).length
            high := (s.tasks.filter (fun t => t.priority = Priority.high)).length
            medium :=
              (s.tasks.filter (fun t => t.priority = Priority.medium)).length
            low := (s.tasks.filter (fun t => t.priority = Priority.low)).length
            categories := statsCategories s.tasks
            overdue := (s.tasks.filter (isOverdue today)).length
            dueSoon :=
              (s.tasks.filter (isDueSoon today oneWeekFromNow)).length
            completionRateTenths :=
              rateTenths
                (s.tasks.filter (fun t => t.status = Status.completed)).length
                s.tasks.length } := by
      unfold getTaskStats
      rw [if_neg hlen]
    refine ⟨⟨fun h => absurd h hemp, fun h => ?_⟩, fun msg h => ?_, ?_⟩
    · rw [hres] at h; cases h
    · rw [hres] at h; cases h
    · intro st hst
      rw [hres] at hst
      cases hst
      have hcs := categoriesMap_spec s.tasks
      have hperm : List.Perm (statsCategories s.tasks) (categoriesMap s.tasks) :=
        stableSort_perm _ _
      have hcompl :
          (s.tasks.filter (fun t => t.status = Status.completed)).length
            = s.tasks.countP (fun t => t.status = Status.completed) :=
        (List.countP_eq_length_filter _ _).symm
      refine ⟨rfl,
        (List.countP_eq_length_filter _ _).symm,
        (List.countP_eq_length_filter _ _).symm,
        hcompl,
        (List.countP_eq_length_filter _ _).symm,
        (List.countP_eq_length_filter _ _).symm,
        (List.countP_eq_length_filter _ _).symm,
        (List.countP_eq_length_filter _ _).symm,
        ?_,
        (List.countP_eq_length_filter _ _).symm,
        ?_, ?_, ?_, ?_, ?_, ?_⟩
      · intro t
        unfold isOverdue
        by_cases hc : t.status = Status.completed
        · rw [if_pos hc]
          simp [hc]
        · rw [if_neg hc]
          cases hd : t.dueDate with
          | none =>
            constructor
            · intro h; cases h
            · rintro ⟨-, d', hd', -, -⟩
              cases hd'
          | some d =>
            show (if d.isEmpty = true then false else strLt d today) = true ↔
              (¬ t.status = Status.completed ∧
                ∃ d', some d = some d' ∧ ¬ d'.isEmpty = true ∧
                  strLt d' today = true)
            by_cases he : d.isEmpty
            · rw [if_pos he]
              constructor
              · intro h; cases h
              · rintro ⟨-, d', hd', he', -⟩
                injection hd' with hdd
                subst hdd
                exact absurd he he'
            · rw [if_neg he]
              constructor
              · intro hlt
                exact ⟨hc, d, rfl, he, hlt⟩
              · rintro ⟨-, d', hd', -, hlt⟩
                injection hd' with hdd
                subst hdd
                exact hlt
      · intro t
        unfold isDueSoon
        by_cases hc : t.status = Status.completed
        · rw [if_pos hc]
          simp [hc]
        · rw [if_neg hc]
          cases hd : t.dueDate with
          | none =>
            constructor
            · intro h; cases h
            · rintro ⟨-, d', hd', -, -⟩
              cases hd'
          | some d =>
            show (if d.isEmpty = true then false
                else strLe today d && strLe d oneWeekFromNow) = true ↔
              (¬ t.status = Status.completed ∧
                ∃ d', some d = some d' ∧ ¬ d'.isEmpty = true ∧
                  strLe today d' = true ∧ strLe d' oneWeekFromNow = true)
            by_cases he : d.isEmpty
            · rw [if_pos he]
              constructor
              · intro h; cases h
              · rintro ⟨-, d', hd', he', -⟩
                injection hd' with hdd
                subst hdd
                exact absurd he he'
            · rw [if_neg he]
              constructor
              · intro hband
                have hsplit : strLe today d = true ∧
                    strLe d oneWeekFromNow = true := by
                  constructor <;> simp_all
                exact ⟨hc, d, rfl, he, hsplit.1, hsplit.2⟩
              · rintro ⟨-, d', hd', -, h1, h2⟩
                injection hd' with hdd
                subst hdd
                simp [h1, h2]
      · exact catPairs_sorted (categoriesMap s.tasks)
      · exact (List.Perm.pairwise_iff
          (fun {p q} (h : p.1 ≠ q.1) => h.symm) hperm).mpr hcs.1
      · intro c n
        rw [hperm.mem_iff]
        exact hcs.2 c n
      · rw [hcompl]
      · rw [hcompl]
        exact rateTenths_bound _ _ (by omega)

/-- The stats report of the example collection (3 completed, 2 pending, all
high priority, categories "work" and "home", one overdue and one due-soon
task relative to today = 2025-03-01). -/
def exStats : TaskStats :=
  { total := 5
    pending := 2
    in_progress := 0
    completed := 3
    high := 5
    medium := 0
    low := 0
    categories := [("home", 1), ("work", 1)]
    overdue := 1
    dueSoon := 1
    completionRateTenths := 600 }

/-- Closed witness for C9 at the example collection: 5 tasks, 3 completed,
1 overdue, the categories listed alphabetically with their counts, and the
reported rate (60.0%) within half a tenth of the exact percentage. -/
theorem C9_stats_witness :
    exStats.total = exStore32.tasks.length ∧
    exStats.completed
      = exStore32.tasks.countP (fun t => t.status = Status.completed) ∧
    exStats.overdue = exStore32.tasks.countP (isOverdue "2025-03-01") ∧
    exStats.dueSoon
      = exStore32.tasks.countP (isDueSoon "2025-03-01" "2025-03-08") ∧
    ((("work" : String), (1 : Nat)) ∈ exStats.categories ↔
      (¬ ("work" : String).isEmpty = true ∧ 0 < 1 ∧
        1 = exStore32.tasks.countP (fun t => t.category = some "work"))) ∧
    |(exStats.completionRateTenths : ℚ) / 10
        - (exStats.completed : ℚ) * 100 / (exStats.total : ℚ)| ≤ 1 / 20 := by
  have h := (C9_stats "2025-03-01" "2025-03-08" exStore32).2.2 exStats
    (by decide)
  obtain ⟨h1, h2, h3, h4, h5, h6, h7, h8, h9, h10, h11, h12, h13, h14,
    h15, h16⟩ := h
  exact ⟨h1, h4, h8, h10, h14 "work" 1, h16⟩

end TaskMgr
